import Mathlib

/-!
Verification of the amqp pipeline adapter (`export.go`).

The adapter's two stream workers are modelled as executable trace semantics:
each run of a worker, against an explicit broker environment, yields the list
of observable events it performs (receives, acknowledgments, sends, publishes,
error reports, channel closes) together with how the run ends.  The producer's
unbounded `for` loop is driven by a fuel parameter counting outer (chunk)
iterations; exhausting the fuel is reported as its own outcome, distinct from
the worker returning or blocking forever on a channel operation.
-/

namespace Amqp

/-- Message payloads are Go byte slices the adapter never inspects; they are
modelled as opaque strings. -/
abbrev Body := String

/-- Errors are opaque values forwarded on the error channel. -/
abbrev Err := String

/-- Resolved configuration, mirroring `queueConfig` in export.go.
`stopAfter` is a Go `int`, `chunkSize` a Go `uint`. -/
structure queueConfig where
  connection : String
  queue : String
  contentType : String
  stopAfter : Int
  chunkSize : Nat
  noWait : Bool
  autoAck : Bool
deriving Repr, DecidableEq

/-- One delivery handed over by the broker: its delivery tag, its body, and the
outcome the broker would give to `Ack(true)` called on it (`none` = success). -/
structure Delivery where
  tag : Nat
  body : Body
  ackErr : Option Err
deriving Repr, DecidableEq

/-- Observable actions of a stream worker, listed in program order. -/
inductive Event where
  | recv (tag : Nat)
  | ackCall (tag : Nat) (multiple : Bool)
  | send (body : Body)
  | errSend (e : Err)
  | publish (exchange routingKey contentType : String) (body : Body)
  | connClose
  | chanClose
  | closeSend
  | closeErrs
  | closeDone
deriving Repr, DecidableEq

/-- How a run of a producer worker ends within the given fuel. -/
inductive Outcome where
  | finished
  | blocked
  | panicked
  | outOfFuel
deriving Repr, DecidableEq

/-- Trace of `disconnect` (export.go:42-50): `conn.Close()` is attempted first
and its error, if any, sent on the error channel; then `channel.Close()` is
attempted and its error, if any, sent as well.  Neither failure aborts. -/
def disconnect (connCloseErr chanCloseErr : Option Err) : List Event :=
  (Event.connClose :: (match connCloseErr with
    | some e => [Event.errSend e]
    | none => []))
  ++ (Event.chanClose :: (match chanCloseErr with
    | some e => [Event.errSend e]
    | none => []))

/-- Broker-side behaviour visible to one producer run.  When `consumeErr` is
`some`, `channel.Consume` failed: the error value is what it returned and the
delivery stream is Go's nil channel, on which every receive blocks.  Otherwise
`messages` lists the deliveries available in order; a receive past the end
blocks. -/
structure ProducerEnv where
  consumeErr : Option Err
  messages : List Delivery
  connCloseErr : Option Err
  chanCloseErr : Option Err
deriving Repr, DecidableEq

/-- Inner forwarding loop of the producer (export.go:142-148): for each buffered
message, send its body, increment `iters`, and `return` as soon as
`config.StopAfter != 0 && iters >= config.StopAfter`.  Returns the emitted
events, the final counter value, and whether the `return` was taken. -/
def sendLoop (stopAfter : Int) : List Delivery → Int → List Event × Int × Bool
  | [], iters => ([], iters, false)
  | d :: rest, iters =>
    if stopAfter ≠ 0 ∧ iters + 1 ≥ stopAfter then
      ([Event.send d.body], iters + 1, true)
    else
      let r := sendLoop stopAfter rest (iters + 1)
      (Event.send d.body :: r.1, r.2.1, r.2.2)

/-- Outer chunked loop of the producer (export.go:131-149), fuel counting outer
iterations.  Each iteration receives exactly `chunkSize` messages one at a time
(blocking when none is available), then, unless `autoAck` is set, evaluates
`msgBuf[len(msgBuf)-1].Ack(true)` — an out-of-range index, hence a panic, when
the buffer is empty — sending any acknowledgment error and returning; finally it
forwards the buffered bodies through `sendLoop`. -/
def chunkLoop (cfg : queueConfig) : Nat → List Delivery → Int → List Event × Outcome
  | 0, _, _ => ([], Outcome.outOfFuel)
  | fuel + 1, msgs, iters =>
    if cfg.chunkSize ≤ msgs.length then
      let buf := msgs.take cfg.chunkSize
      let recvs := buf.map fun d => Event.recv d.tag
      if cfg.autoAck then
        let s := sendLoop cfg.stopAfter buf iters
        if s.2.2 then
          (recvs ++ s.1, Outcome.finished)
        else
          let rest := chunkLoop cfg fuel (msgs.drop cfg.chunkSize) s.2.1
          (recvs ++ s.1 ++ rest.1, rest.2)
      else
        match buf.getLast? with
        | none => (recvs, Outcome.panicked)
        | some last =>
          match last.ackErr with
          | some e =>
            (recvs ++ [Event.ackCall last.tag true, Event.errSend e], Outcome.finished)
          | none =>
            let s := sendLoop cfg.stopAfter buf iters
            if s.2.2 then
              (recvs ++ [Event.ackCall last.tag true] ++ s.1, Outcome.finished)
            else
              let rest := chunkLoop cfg fuel (msgs.drop cfg.chunkSize) s.2.1
              (recvs ++ [Event.ackCall last.tag true] ++ s.1 ++ rest.1, rest.2)
    else
      (msgs.map fun d => Event.recv d.tag, Outcome.blocked)

/-- Deferred teardown of the producer worker (export.go:127-129).  Go runs
deferred calls in reverse registration order, so `disconnect` runs first, then
`close(errs)`, then `close(send)`. -/
def producerTeardown (env : ProducerEnv) : List Event :=
  disconnect env.connCloseErr env.chanCloseErr ++ [Event.closeErrs, Event.closeSend]

/-- Whole producer worker (export.go:120-150).  A `Consume` error is sent on the
error channel, but the code then falls through (there is no `return`), so the
loop runs against the nil delivery stream, which behaves exactly like an empty
message list: any needed receive blocks forever.  The deferred teardown runs
when the function returns, and also while unwinding a panic. -/
def producerRun (fuel : Nat) (cfg : queueConfig) (env : ProducerEnv) :
    List Event × Outcome :=
  let setup : List Event × List Delivery :=
    match env.consumeErr with
    | some e => ([Event.errSend e], [])
    | none => ([], env.messages)
  let r := chunkLoop cfg fuel setup.2 0
  match r.2 with
  | Outcome.finished => (setup.1 ++ r.1 ++ producerTeardown env, Outcome.finished)
  | Outcome.panicked => (setup.1 ++ r.1 ++ producerTeardown env, Outcome.panicked)
  | o => (setup.1 ++ r.1, o)

/-- Broker-side behaviour visible to one consumer run: the items arriving on the
input channel before the host closes it, each paired with the outcome of its
`PublishWithContext` call (`none` = success), plus the close outcomes used at
teardown. -/
structure ConsumerEnv where
  items : List (Body × Option Err)
  connCloseErr : Option Err
  chanCloseErr : Option Err
deriving Repr, DecidableEq

/-- Publish loop of the consumer (export.go:167-174): each item is published to
the default exchange (empty string) with routing key equal to the queue name,
the configured content type and the item's bytes as body; a publish error is
sent on the error channel and the loop moves on to the next item. -/
def pubEvents (queue contentType : String) : List (Body × Option Err) → List Event
  | [] => []
  | p :: rest =>
    Event.publish "" queue contentType p.1 ::
      ((match p.2 with
        | some e => [Event.errSend e]
        | none => []) ++ pubEvents queue contentType rest)

/-- Whole consumer worker (export.go:163-175).  It terminates when the input
channel closes; the deferred calls then run in reverse registration order:
`disconnect`, then `close(errs)`, then `close(done)`. -/
def consumerRun (cfg : queueConfig) (env : ConsumerEnv) : List Event :=
  pubEvents cfg.queue cfg.contentType env.items
  ++ disconnect env.connCloseErr env.chanCloseErr
  ++ [Event.closeErrs, Event.closeDone]

/-- Test for a send event. -/
def isSend : Event → Bool
  | Event.send _ => true
  | _ => false

/-- Test for a receive event. -/
def isRecv : Event → Bool
  | Event.recv _ => true
  | _ => false

/-- Test for an acknowledgment attempt. -/
def isAck : Event → Bool
  | Event.ackCall _ _ => true
  | _ => false

/-- Test for an error report. -/
def isErr : Event → Bool
  | Event.errSend _ => true
  | _ => false

/-- Test for a publish attempt. -/
def isPublish : Event → Bool
  | Event.publish _ _ _ _ => true
  | _ => false

/-- Test for a teardown action: a channel close of either broker object or of
any of the worker-facing pipeline channels. -/
def isTeardown : Event → Bool
  | Event.connClose => true
  | Event.chanClose => true
  | Event.closeSend => true
  | Event.closeErrs => true
  | Event.closeDone => true
  | _ => false

/-- Number of send events in a trace. -/
def countSends (t : List Event) : Nat := t.countP isSend

/-- Number of receive events in a trace. -/
def countRecvs (t : List Event) : Nat := t.countP isRecv

/-- Number of acknowledgment attempts in a trace. -/
def countAcks (t : List Event) : Nat := t.countP isAck

/-- Number of error reports in a trace. -/
def countErrs (t : List Event) : Nat := t.countP isErr

/-- Classification of the events the chunked consume loop can emit: receives,
acknowledgment attempts, error reports and sends only — never a close. -/
def isLoopEvent (e : Event) : Bool := isRecv e || isAck e || isErr e || isSend e

/-- With `stop-after` zero the Go `return` inside the forwarding loop is never
taken: every buffered body is sent and the counter grows by the buffer length. -/
theorem sendLoop_stopAfter_zero (buf : List Delivery) (i : Int) :
    sendLoop 0 buf i = (buf.map fun d => Event.send d.body, i + buf.length, false) := by
  induction buf generalizing i with
  | nil => simp [sendLoop]
  | cons d rest ih =>
    simp only [sendLoop, ne_eq, not_true_eq_false, false_and, if_false, ih]
    simp [Prod.ext_iff]
    omega

/-- When the counter cannot reach `stop-after` within the buffer, the forwarding
loop sends every buffered body and the `return` is not taken. -/
theorem sendLoop_no_stop (k : Int) (buf : List Delivery) (i : Int)
    (h : i + buf.length < k) :
    sendLoop k buf i = (buf.map fun d => Event.send d.body, i + buf.length, false) := by
  induction buf generalizing i with
  | nil => simp [sendLoop]
  | cons d rest ih =>
    have hlt : ¬ i + 1 ≥ k := by
      simp only [List.length_cons] at h
      push_cast at h ⊢
      omega
    have hrest : i + 1 + (rest.length : Int) < k := by
      simp only [List.length_cons] at h
      push_cast at h ⊢
      omega
    simp only [sendLoop, hlt, and_false, if_false, ih _ hrest]
    simp [Prod.ext_iff]
    omega

/-- When `stop-after` is positive, not yet reached, but reachable within the
buffer, the forwarding loop sends exactly the first `stop-after - iters` bodies
and takes the `return` with the counter equal to `stop-after`. -/
theorem sendLoop_stop (k : Int) (buf : List Delivery) (i : Int)
    (h0 : 0 < k) (hik : i < k) (hlen : k ≤ i + buf.length) :
    sendLoop k buf i
      = ((buf.take (k - i).toNat).map fun d => Event.send d.body, k, true) := by
  induction buf generalizing i with
  | nil =>
    exfalso
    simp only [List.length_nil] at hlen
    omega
  | cons d rest ih =>
    by_cases hstop : i + 1 ≥ k
    · have hk : k = i + 1 := by omega
      have hone : (k - i).toNat = 1 := by omega
      have hcond : k ≠ 0 ∧ i + 1 ≥ k := ⟨by omega, hstop⟩
      simp only [sendLoop, if_pos hcond, hone, List.take_succ_cons, List.take_zero,
        List.map_cons, List.map_nil]
      simp [Prod.ext_iff]
      omega
    · have hrest : k ≤ i + 1 + (rest.length : Int) := by
        simp only [List.length_cons] at hlen
        push_cast at hlen ⊢
        omega
      have hcond : ¬ (k ≠ 0 ∧ i + 1 ≥ k) := by
        intro hc
        exact hstop hc.2
      have hsucc : (k - i).toNat = (k - (i + 1)).toNat + 1 := by omega
      simp only [sendLoop, if_neg hcond, ih (i + 1) (by omega) hrest, hsucc,
        List.take_succ_cons, List.map_cons]

/-- Every event the forwarding loop emits is a send. -/
theorem sendLoop_events_send (k : Int) (buf : List Delivery) (i : Int) :
    ∀ e ∈ (sendLoop k buf i).1, isSend e = true := by
  induction buf generalizing i with
  | nil => simp [sendLoop]
  | cons d rest ih =>
    by_cases hcond : k ≠ 0 ∧ i + 1 ≥ k
    · simp [sendLoop, if_pos hcond, isSend]
    · simp only [sendLoop, if_neg hcond]
      intro e he
      rcases List.mem_cons.mp he with rfl | he
      · rfl
      · exact ih (i + 1) e he

/-- Every event the chunked consume loop emits is a receive, an acknowledgment
attempt, an error report or a send. -/
theorem chunkLoop_events (cfg : queueConfig) (fuel : Nat) :
    ∀ (msgs : List Delivery) (i : Int) (e : Event),
      e ∈ (chunkLoop cfg fuel msgs i).1 → isLoopEvent e = true := by
  induction fuel with
  | zero =>
    intro msgs i e he
    simp [chunkLoop] at he
  | succ fuel ih =>
    intro msgs i e he
    simp only [chunkLoop] at he
    split at he
    · split at he
      · split at he
        · rw [List.mem_append] at he
          rcases he with he | he
          · rcases List.mem_map.mp he with ⟨d, hd, rfl⟩
            rfl
          · simp [isLoopEvent, sendLoop_events_send _ _ _ e he]
        · rw [List.mem_append, List.mem_append] at he
          rcases he with (he | he) | he
          · rcases List.mem_map.mp he with ⟨d, hd, rfl⟩
            rfl
          · simp [isLoopEvent, sendLoop_events_send _ _ _ e he]
          · exact ih _ _ e he
      · split at he
        · rcases List.mem_map.mp he with ⟨d, hd, rfl⟩
          rfl
        · split at he
          · simp only [List.mem_append, List.mem_cons, List.not_mem_nil, or_false] at he
            rcases he with he | rfl | rfl
            · rcases List.mem_map.mp he with ⟨d, hd, rfl⟩
              rfl
            · rfl
            · rfl
          · split at he
            · simp only [List.append_assoc, List.mem_append, List.mem_cons,
                List.not_mem_nil, or_false] at he
              rcases he with he | rfl | he
              · rcases List.mem_map.mp he with ⟨d, hd, rfl⟩
                rfl
              · rfl
              · simp [isLoopEvent, sendLoop_events_send _ _ _ e he]
            · simp only [List.append_assoc, List.mem_append, List.mem_cons,
                List.not_mem_nil, or_false] at he
              rcases he with he | rfl | he | he
              · rcases List.mem_map.mp he with ⟨d, hd, rfl⟩
                rfl
              · rfl
              · simp [isLoopEvent, sendLoop_events_send _ _ _ e he]
              · exact ih _ _ e he
    · rcases List.mem_map.mp he with ⟨d, hd, rfl⟩
      rfl

/-- Membership in a taken prefix carries over to the whole list. -/
theorem take_getLast?_mem {l : List Delivery} {n : Nat} {d : Delivery}
    (h : (l.take n).getLast? = some d) : d ∈ l := by
  rcases List.getLast?_eq_some_iff.mp h with ⟨ys, hys⟩
  have hmem : d ∈ l.take n := by
    rw [hys]
    simp
  exact List.take_subset n l hmem

/-- A nonempty taken prefix has a last element. -/
theorem take_getLast?_isSome {l : List Delivery} {n : Nat} (h1 : 1 ≤ n)
    (h2 : n ≤ l.length) : ∃ d, (l.take n).getLast? = some d := by
  have hne : l.take n ≠ [] := by
    intro hnil
    have hlen := congrArg List.length hnil
    simp only [List.length_take, List.length_nil] at hlen
    omega
  obtain ⟨d, hd⟩ := Option.isSome_iff_exists.mp (List.getLast?_isSome.mpr hne)
  exact ⟨d, hd⟩

/-- With `stop-after = 0` and no acknowledgment failure among the available
messages, the chunked loop never takes the `return`: the run cannot end
`finished`, whatever the fuel. -/
theorem chunkLoop_stopAfter_zero_not_finished (cfg : queueConfig)
    (hc : 1 ≤ cfg.chunkSize) (hk : cfg.stopAfter = 0) :
    ∀ (fuel : Nat) (msgs : List Delivery) (i : Int),
      (∀ d ∈ msgs, d.ackErr = none) →
      (chunkLoop cfg fuel msgs i).2 ≠ Outcome.finished := by
  intro fuel
  induction fuel with
  | zero =>
    intro msgs i hack
    simp [chunkLoop]
  | succ fuel ih =>
    intro msgs i hack
    by_cases hcle : cfg.chunkSize ≤ msgs.length
    · have hbuf : (msgs.take cfg.chunkSize).length = cfg.chunkSize := by
        rw [List.length_take]
        omega
      have hs := sendLoop_stopAfter_zero (msgs.take cfg.chunkSize) i
      rw [← hk] at hs
      cases hA : cfg.autoAck with
      | true =>
        simp only [chunkLoop, if_pos hcle, hA, if_true, hs]
        exact ih (msgs.drop cfg.chunkSize) _ fun d hd => hack d (List.drop_subset _ _ hd)
      | false =>
        obtain ⟨last, hlast⟩ := take_getLast?_isSome hc hcle
        have hackl : last.ackErr = none := hack last (take_getLast?_mem hlast)
        simp only [chunkLoop, if_pos hcle, hA, Bool.false_eq_true, if_false, hlast, hackl, hs]
        exact ih (msgs.drop cfg.chunkSize) _ fun d hd => hack d (List.drop_subset _ _ hd)
    · simp [chunkLoop, hcle]

/-- With a positive `stop-after` not yet reached, enough fuel and enough
available messages (whole chunks covering the remaining count), and no
acknowledgment failures, the chunked loop takes the Go `return` and the number
of sends it performed is exactly the remaining `stop-after - iters`. -/
theorem chunkLoop_finishes (cfg : queueConfig) (hc : 1 ≤ cfg.chunkSize) :
    ∀ (fuel : Nat) (msgs : List Delivery) (i : Int),
      (∀ d ∈ msgs, d.ackErr = none) →
      0 ≤ i → i < cfg.stopAfter →
      (cfg.stopAfter - i).toNat ≤ cfg.chunkSize * fuel →
      cfg.chunkSize * fuel ≤ msgs.length →
      (chunkLoop cfg fuel msgs i).2 = Outcome.finished ∧
        countSends (chunkLoop cfg fuel msgs i).1 = (cfg.stopAfter - i).toNat := by
  have hrecv0 : ∀ (l : List Delivery),
      List.countP (isSend ∘ fun d => Event.recv d.tag) l = 0 :=
    fun l => List.countP_eq_zero.mpr fun a _ h => by simp [Function.comp, isSend] at h
  have hsendF : ∀ (l : List Delivery),
      List.countP (isSend ∘ fun d => Event.send d.body) l = l.length :=
    fun l => List.countP_eq_length.mpr fun a _ => rfl
  intro fuel
  induction fuel with
  | zero =>
    intro msgs i hack h0 hik hfu hlen
    exfalso
    simp only [Nat.mul_zero, Nat.le_zero] at hfu
    omega
  | succ fuel ih =>
    intro msgs i hack h0 hik hfu hlen
    have hms : cfg.chunkSize * (fuel + 1) = cfg.chunkSize * fuel + cfg.chunkSize :=
      Nat.mul_succ _ _
    have hcle : cfg.chunkSize ≤ msgs.length := by omega
    have hbuf : (msgs.take cfg.chunkSize).length = cfg.chunkSize := by
      rw [List.length_take]
      omega
    have hdlen : (msgs.drop cfg.chunkSize).length = msgs.length - cfg.chunkSize :=
      List.length_drop _ _
    rcases lt_or_ge (i + (cfg.chunkSize : Int)) cfg.stopAfter with hcase | hcase
    · -- the counter cannot reach stop-after inside this chunk: recurse
      have hs := sendLoop_no_stop cfg.stopAfter (msgs.take cfg.chunkSize) i
        (by rw [hbuf]; exact hcase)
      rw [hbuf] at hs
      have ihh := ih (msgs.drop cfg.chunkSize) (i + (cfg.chunkSize : Int))
        (fun d hd => hack d (List.drop_subset _ _ hd))
        (by omega) hcase (by omega) (by omega)
      have h2 := ihh.2
      simp only [countSends] at h2
      cases hA : cfg.autoAck with
      | true =>
        simp only [chunkLoop, if_pos hcle, hA, if_true, hs, Bool.false_eq_true, if_false]
        refine ⟨ihh.1, ?_⟩
        simp only [countSends, List.countP_append, List.countP_map]
        rw [hrecv0, hsendF, hbuf]
        omega
      | false =>
        obtain ⟨last, hlast⟩ := take_getLast?_isSome hc hcle
        have hackl : last.ackErr = none := hack last (take_getLast?_mem hlast)
        have hack0 : List.countP isSend [Event.ackCall last.tag true] = 0 := rfl
        simp only [chunkLoop, if_pos hcle, hA, Bool.false_eq_true, if_false, hlast,
          hackl, hs]
        refine ⟨ihh.1, ?_⟩
        simp only [countSends, List.countP_append, List.countP_map]
        rw [hrecv0, hsendF, hbuf, hack0]
        omega
    · -- stop-after is reached inside this chunk: the return is taken
      have h0k : (0 : Int) < cfg.stopAfter := by omega
      have hs := sendLoop_stop cfg.stopAfter (msgs.take cfg.chunkSize) i h0k hik
        (by rw [hbuf]; omega)
      have htlen : (((msgs.take cfg.chunkSize)).take (cfg.stopAfter - i).toNat).length
          = (cfg.stopAfter - i).toNat := by
        rw [List.length_take, hbuf]
        omega
      cases hA : cfg.autoAck with
      | true =>
        simp only [chunkLoop, if_pos hcle, hA, if_true, hs, eq_self_iff_true]
        refine ⟨by trivial, ?_⟩
        simp only [countSends, List.countP_append, List.countP_map]
        rw [hrecv0, hsendF, htlen]
        omega
      | false =>
        obtain ⟨last, hlast⟩ := take_getLast?_isSome hc hcle
        have hackl : last.ackErr = none := hack last (take_getLast?_mem hlast)
        have hack0 : List.countP isSend [Event.ackCall last.tag true] = 0 := rfl
        simp only [chunkLoop, if_pos hcle, hA, Bool.false_eq_true, if_false, hlast,
          hackl, hs, eq_self_iff_true, if_true]
        refine ⟨by trivial, ?_⟩
        simp only [countSends, List.countP_append, List.countP_map]
        rw [hrecv0, hsendF, htlen, hack0]
        omega

/-- With `stop-after = 0`, no acknowledgment failure and fuel exceeding the
number of available chunks, the chunked loop ends blocked on a receive, having
sent exactly the bodies of the full chunks: `chunkSize * (length / chunkSize)`
messages. -/
theorem chunkLoop_blocked (cfg : queueConfig) (hc : 1 ≤ cfg.chunkSize)
    (hk : cfg.stopAfter = 0) :
    ∀ (fuel : Nat) (msgs : List Delivery) (i : Int),
      (∀ d ∈ msgs, d.ackErr = none) →
      msgs.length < cfg.chunkSize * fuel →
      (chunkLoop cfg fuel msgs i).2 = Outcome.blocked ∧
        countSends (chunkLoop cfg fuel msgs i).1
          = cfg.chunkSize * (msgs.length / cfg.chunkSize) := by
  have hrecv0 : ∀ (l : List Delivery),
      List.countP (isSend ∘ fun d => Event.recv d.tag) l = 0 :=
    fun l => List.countP_eq_zero.mpr fun a _ h => by simp [Function.comp, isSend] at h
  have hsendF : ∀ (l : List Delivery),
      List.countP (isSend ∘ fun d => Event.send d.body) l = l.length :=
    fun l => List.countP_eq_length.mpr fun a _ => rfl
  intro fuel
  induction fuel with
  | zero =>
    intro msgs i hack hlen
    exfalso
    simp only [Nat.mul_zero] at hlen
    omega
  | succ fuel ih =>
    intro msgs i hack hlen
    have hms : cfg.chunkSize * (fuel + 1) = cfg.chunkSize * fuel + cfg.chunkSize :=
      Nat.mul_succ _ _
    by_cases hcle : cfg.chunkSize ≤ msgs.length
    · have hbuf : (msgs.take cfg.chunkSize).length = cfg.chunkSize := by
        rw [List.length_take]
        omega
      have hdlen : (msgs.drop cfg.chunkSize).length = msgs.length - cfg.chunkSize :=
        List.length_drop _ _
      have hdiv : msgs.length / cfg.chunkSize
          = (msgs.length - cfg.chunkSize) / cfg.chunkSize + 1 := by
        conv_lhs => rw [← Nat.sub_add_cancel hcle]
        rw [Nat.add_div_right _ (by omega)]
      have hmul : cfg.chunkSize * (msgs.length / cfg.chunkSize)
          = cfg.chunkSize * ((msgs.length - cfg.chunkSize) / cfg.chunkSize)
            + cfg.chunkSize := by
        rw [hdiv, Nat.mul_succ]
      have hs := sendLoop_stopAfter_zero (msgs.take cfg.chunkSize) i
      rw [← hk] at hs
      rw [hbuf] at hs
      have ihh := ih (msgs.drop cfg.chunkSize) (i + (cfg.chunkSize : Int))
        (fun d hd => hack d (List.drop_subset _ _ hd)) (by omega)
      have h2 := ihh.2
      simp only [countSends, hdlen] at h2
      cases hA : cfg.autoAck with
      | true =>
        simp only [chunkLoop, if_pos hcle, hA, if_true, hs, Bool.false_eq_true, if_false]
        refine ⟨ihh.1, ?_⟩
        simp only [countSends, List.countP_append, List.countP_map]
        rw [hrecv0, hsendF, hbuf]
        omega
      | false =>
        obtain ⟨last, hlast⟩ := take_getLast?_isSome hc hcle
        have hackl : last.ackErr = none := hack last (take_getLast?_mem hlast)
        have hack0 : List.countP isSend [Event.ackCall last.tag true] = 0 := rfl
        simp only [chunkLoop, if_pos hcle, hA, Bool.false_eq_true, if_false, hlast,
          hackl, hs]
        refine ⟨ihh.1, ?_⟩
        simp only [countSends, List.countP_append, List.countP_map]
        rw [hrecv0, hsendF, hbuf, hack0]
        omega
    · have hdiv0 : msgs.length / cfg.chunkSize = 0 :=
        Nat.div_eq_of_lt (by omega)
      simp only [chunkLoop, if_neg hcle, hdiv0, Nat.mul_zero]
      refine ⟨by trivial, ?_⟩
      simp only [countSends, List.countP_map]
      rw [hrecv0]

/-- Counting events of a mapped list when the predicate rejects every image. -/
theorem countP_map_zero {α : Type} (p : Event → Bool) (f : α → Event)
    (hp : ∀ a, p (f a) = false) (l : List α) :
    List.countP p (l.map f) = 0 := by
  rw [List.countP_map, List.countP_eq_zero]
  intro a _
  simp [Function.comp, hp]

/-- Counting events of a mapped list when the predicate accepts every image. -/
theorem countP_map_full {α : Type} (p : Event → Bool) (f : α → Event)
    (hp : ∀ a, p (f a) = true) (l : List α) :
    List.countP p (l.map f) = l.length := by
  rw [List.countP_map]
  exact List.countP_eq_length.mpr fun a _ => by simp [Function.comp, hp]

/-- A predicate rejecting sends counts nothing in a forwarding-loop trace. -/
theorem sendLoop_countP_zero (p : Event → Bool) (hp : ∀ b, p (Event.send b) = false)
    (k : Int) (buf : List Delivery) (i : Int) :
    List.countP p (sendLoop k buf i).1 = 0 := by
  rw [List.countP_eq_zero]
  intro e he
  have h := sendLoop_events_send k buf i e he
  cases e <;> simp_all [isSend, hp]

/-- With a positive chunk size the chunked loop never reaches the out-of-range
acknowledgment index: no run of it panics. -/
theorem chunkLoop_no_panic (cfg : queueConfig) (hc : 1 ≤ cfg.chunkSize) :
    ∀ (fuel : Nat) (msgs : List Delivery) (i : Int),
      (chunkLoop cfg fuel msgs i).2 ≠ Outcome.panicked := by
  intro fuel
  induction fuel with
  | zero =>
    intro msgs i
    simp [chunkLoop]
  | succ fuel ih =>
    intro msgs i
    by_cases hcle : cfg.chunkSize ≤ msgs.length
    · cases hA : cfg.autoAck with
      | true =>
        simp only [chunkLoop, if_pos hcle, hA, if_true]
        split
        · simp
        · simpa using ih _ _
      | false =>
        obtain ⟨last, hlast⟩ := take_getLast?_isSome hc hcle
        simp only [chunkLoop, if_pos hcle, hA, Bool.false_eq_true, if_false, hlast]
        cases hae : last.ackErr with
        | some e => simp
        | none =>
          simp only [hae]
          split
          · simp
          · simpa using ih _ _
    · simp [chunkLoop, hcle]

/-- Start of a chunk iteration with manual acknowledgment: the trace begins with
the `chunkSize` receives of the whole chunk followed immediately by the single
cumulative `Ack(true)` on the chunk's last delivery — in particular no send and
no further acknowledgment can precede or interleave with them. -/
theorem chunkLoop_chunk_start (cfg : queueConfig) (hA : cfg.autoAck = false)
    (fuel : Nat) (msgs : List Delivery) (i : Int)
    (hcle : cfg.chunkSize ≤ msgs.length) (last : Delivery)
    (hlast : (msgs.take cfg.chunkSize).getLast? = some last) :
    (chunkLoop cfg (fuel + 1) msgs i).1.take (cfg.chunkSize + 1)
      = ((msgs.take cfg.chunkSize).map fun d => Event.recv d.tag)
        ++ [Event.ackCall last.tag true] := by
  have hbuf : (msgs.take cfg.chunkSize).length = cfg.chunkSize := by
    rw [List.length_take]
    omega
  have hmaplen : ((msgs.take cfg.chunkSize).map fun d => Event.recv d.tag).length
      = cfg.chunkSize := by
    rw [List.length_map, hbuf]
  have hstep : ∀ (rest : List Event),
      (((msgs.take cfg.chunkSize).map fun d => Event.recv d.tag)
        ++ (Event.ackCall last.tag true :: rest)).take (cfg.chunkSize + 1)
      = ((msgs.take cfg.chunkSize).map fun d => Event.recv d.tag)
        ++ [Event.ackCall last.tag true] := by
    intro rest
    have h := @List.take_append Event
      ((msgs.take cfg.chunkSize).map fun d => Event.recv d.tag)
      (Event.ackCall last.tag true :: rest) 1
    rw [hmaplen] at h
    rw [h]
    simp
  cases hae : last.ackErr with
  | some e =>
    simp only [chunkLoop, if_pos hcle, hA, Bool.false_eq_true, if_false, hlast, hae]
    exact hstep [Event.errSend e]
  | none =>
    simp only [chunkLoop, if_pos hcle, hA, Bool.false_eq_true, if_false, hlast, hae]
    split
    · rw [List.append_assoc]
      exact hstep _
    · rw [List.append_assoc, List.append_assoc]
      exact hstep _


/-- A failing cumulative acknowledgment ends the chunk iteration at once: the
error is sent on the error channel and the loop returns, forwarding none of the
chunk's bodies. -/
theorem chunkLoop_ack_failure (cfg : queueConfig) (hA : cfg.autoAck = false)
    (fuel : Nat) (msgs : List Delivery) (i : Int)
    (hcle : cfg.chunkSize ≤ msgs.length) (last : Delivery) (e : Err)
    (hlast : (msgs.take cfg.chunkSize).getLast? = some last)
    (hfail : last.ackErr = some e) :
    chunkLoop cfg (fuel + 1) msgs i
      = (((msgs.take cfg.chunkSize).map fun d => Event.recv d.tag)
          ++ [Event.ackCall last.tag true, Event.errSend e], Outcome.finished) := by
  simp only [chunkLoop, if_pos hcle, hA, Bool.false_eq_true, if_false, hlast, hfail]

/-- With manual acknowledgment, every acknowledgment attempt in a chunked-loop
trace accounts for a full chunk of receives: `chunkSize` times the number of
`Ack` calls never exceeds the number of receives.  In particular the loop never
acknowledges per message when chunks are larger than one. -/
theorem chunkLoop_ack_le_recv (cfg : queueConfig) (hA : cfg.autoAck = false) :
    ∀ (fuel : Nat) (msgs : List Delivery) (i : Int),
      cfg.chunkSize * countAcks (chunkLoop cfg fuel msgs i).1
        ≤ countRecvs (chunkLoop cfg fuel msgs i).1 := by
  intro fuel
  induction fuel with
  | zero =>
    intro msgs i
    simp [chunkLoop, countAcks, countRecvs]
  | succ fuel ih =>
    intro msgs i
    by_cases hcle : cfg.chunkSize ≤ msgs.length
    · have hbuf : (msgs.take cfg.chunkSize).length = cfg.chunkSize := by
        rw [List.length_take]
        omega
      have hrecvR : List.countP isRecv
          ((msgs.take cfg.chunkSize).map fun d => Event.recv d.tag)
          = cfg.chunkSize := by
        rw [countP_map_full isRecv (fun d : Delivery => Event.recv d.tag) (fun a => rfl), hbuf]
      have hrecvA : List.countP isAck
          ((msgs.take cfg.chunkSize).map fun d => Event.recv d.tag) = 0 :=
        countP_map_zero isAck (fun d : Delivery => Event.recv d.tag) (fun a => rfl) _
      have hsA := sendLoop_countP_zero isAck (fun b => rfl) cfg.stopAfter
        (msgs.take cfg.chunkSize)
      have hsR := sendLoop_countP_zero isRecv (fun b => rfl) cfg.stopAfter
        (msgs.take cfg.chunkSize)
      cases hl : (msgs.take cfg.chunkSize).getLast? with
      | none =>
        simp only [chunkLoop, if_pos hcle, hA, Bool.false_eq_true, if_false, hl,
          countAcks, countRecvs]
        rw [hrecvA]
        simp
      | some last =>
        cases hae : last.ackErr with
        | some e =>
          have hA1 : List.countP isAck
              [Event.ackCall last.tag true, Event.errSend e] = 1 := rfl
          have hR0 : List.countP isRecv
              [Event.ackCall last.tag true, Event.errSend e] = 0 := rfl
          simp only [chunkLoop, if_pos hcle, hA, Bool.false_eq_true, if_false, hl,
            hae, countAcks, countRecvs, List.countP_append]
          rw [hrecvR, hrecvA, hA1, hR0]
          omega
        | none =>
          have hA1 : List.countP isAck [Event.ackCall last.tag true] = 1 := rfl
          have hR0 : List.countP isRecv [Event.ackCall last.tag true] = 0 := rfl
          simp only [chunkLoop, if_pos hcle, hA, Bool.false_eq_true, if_false, hl, hae]
          split
          · simp only [countAcks, countRecvs, List.countP_append]
            rw [hrecvR, hrecvA, hA1, hR0, hsA, hsR]
            omega
          · have ihx := ih (msgs.drop cfg.chunkSize)
              (sendLoop cfg.stopAfter (msgs.take cfg.chunkSize) i).2.1
            simp only [countAcks, countRecvs] at ihx
            simp only [countAcks, countRecvs, List.countP_append]
            rw [hrecvR, hrecvA, hA1, hR0, hsA, hsR]
            ring_nf
            ring_nf at ihx
            omega
    · simp only [chunkLoop, if_neg hcle, countAcks, countRecvs]
      rw [countP_map_zero isAck (fun d : Delivery => Event.recv d.tag) (fun a => rfl)]
      simp

/-- Counting a predicate over a disconnect trace that rejects both close
attempts and every error report gives zero. -/
theorem disconnect_countP_zero (p : Event → Bool) (h1 : p Event.connClose = false)
    (h2 : p Event.chanClose = false) (h3 : ∀ e, p (Event.errSend e) = false)
    (ce che : Option Err) : List.countP p (disconnect ce che) = 0 := by
  cases ce <;> cases che <;> simp [disconnect, List.countP_cons, h1, h2, h3]

/-- Exact occurrence counts of the close attempts inside a disconnect trace:
each of the two broker closes is attempted exactly once, and no pipeline
channel close happens there. -/
theorem disconnect_counts (ce che : Option Err) :
    (disconnect ce che).count Event.connClose = 1
    ∧ (disconnect ce che).count Event.chanClose = 1
    ∧ (disconnect ce che).count Event.closeSend = 0
    ∧ (disconnect ce che).count Event.closeErrs = 0
    ∧ (disconnect ce che).count Event.closeDone = 0 := by
  cases ce <;> cases che <;> exact ⟨rfl, rfl, rfl, rfl, rfl⟩

/-- An event of a teardown kind does not occur in a list whose teardown count
is zero. -/
theorem count_zero_of_countP_teardown_zero {l : List Event}
    (h : List.countP isTeardown l = 0) (a : Event) (ha : isTeardown a = true) :
    l.count a = 0 := by
  rw [List.count_eq_zero]
  intro hmem
  have hfalse := List.countP_eq_zero.mp h a hmem
  rw [ha] at hfalse
  exact hfalse rfl

/-- The chunked consume loop performs no teardown action itself. -/
theorem chunkLoop_countP_teardown (cfg : queueConfig) (fuel : Nat)
    (msgs : List Delivery) (i : Int) :
    List.countP isTeardown (chunkLoop cfg fuel msgs i).1 = 0 := by
  rw [List.countP_eq_zero]
  intro e he
  have h := chunkLoop_events cfg fuel msgs i e he
  cases e <;> simp_all [isLoopEvent, isRecv, isAck, isErr, isSend, isTeardown]

/-- Every event of the consumer's publish loop is a publish or an error
report. -/
theorem pubEvents_events (q ct : String) :
    ∀ (items : List (Body × Option Err)) (e : Event),
      e ∈ pubEvents q ct items → (isPublish e || isErr e) = true := by
  intro items
  induction items with
  | nil =>
    intro e he
    simp [pubEvents] at he
  | cons p rest ih =>
    intro e he
    simp only [pubEvents, List.mem_cons, List.mem_append] at he
    rcases he with rfl | he | he
    · rfl
    · cases hp : p.2 with
      | some err =>
        rw [hp] at he
        simp only [List.mem_singleton] at he
        subst he
        rfl
      | none =>
        rw [hp] at he
        simp at he
    · exact ih e he

/-- The publish loop performs no teardown action. -/
theorem pubEvents_countP_teardown (q ct : String)
    (items : List (Body × Option Err)) :
    List.countP isTeardown (pubEvents q ct items) = 0 := by
  rw [List.countP_eq_zero]
  intro e he
  have h := pubEvents_events q ct items e he
  cases e <;> simp_all [isPublish, isErr, isTeardown]

/-- Keeping only publish events of the publish loop returns exactly one
publish per item, in order, to the default exchange with routing key `q`,
content type `ct` and the item's body. -/
theorem pubEvents_filter (q ct : String) :
    ∀ (items : List (Body × Option Err)),
      (pubEvents q ct items).filter isPublish
        = items.map fun p => Event.publish "" q ct p.1 := by
  intro items
  induction items with
  | nil => rfl
  | cons p rest ih =>
    cases hp : p.2 with
    | some err =>
      simp only [pubEvents, hp, List.filter_cons, List.filter_append]
      rw [ih]
      rfl
    | none =>
      simp only [pubEvents, hp, List.filter_cons, List.filter_append]
      rw [ih]
      rfl

/-- The publish loop reports exactly one error per failed publish. -/
theorem pubEvents_countErrs (q ct : String) :
    ∀ (items : List (Body × Option Err)),
      List.countP isErr (pubEvents q ct items)
        = items.countP fun p => p.2.isSome := by
  intro items
  induction items with
  | nil => rfl
  | cons p rest ih =>
    cases hp : p.2 with
    | some err =>
      simp only [pubEvents, hp, List.countP_cons, List.countP_append, ih,
        List.countP_nil]
      simp [isErr, hp]
      omega
    | none =>
      simp only [pubEvents, hp, List.countP_cons, List.countP_append, ih,
        List.countP_nil]
      simp [isErr, hp]

/-- The producer teardown contains no event accepted by a predicate that
rejects the two broker closes, error reports, and both pipeline closes. -/
theorem producerTeardown_countP_zero (env : ProducerEnv) (p : Event → Bool)
    (h1 : p Event.connClose = false) (h2 : p Event.chanClose = false)
    (h3 : ∀ e, p (Event.errSend e) = false) (h4 : p Event.closeErrs = false)
    (h5 : p Event.closeSend = false) :
    List.countP p (producerTeardown env) = 0 := by
  simp [producerTeardown, List.countP_append,
    disconnect_countP_zero p h1 h2 h3, List.countP_cons, h4, h5]

/-- Any producer run that returns ends with the full deferred teardown, in
reverse registration order — disconnect (conn close, then channel close), then
`close(errs)`, then `close(send)` — preceded by events none of which is a
close. -/
theorem producerRun_finished_shape (fuel : Nat) (cfg : queueConfig)
    (env : ProducerEnv)
    (hfin : (producerRun fuel cfg env).2 = Outcome.finished) :
    ∃ pre, (producerRun fuel cfg env).1
        = pre ++ (disconnect env.connCloseErr env.chanCloseErr
          ++ [Event.closeErrs, Event.closeSend])
      ∧ List.countP isTeardown pre = 0 := by
  cases henv : env.consumeErr with
  | some e =>
    cases ho : (chunkLoop cfg fuel [] 0).2 with
    | finished =>
      refine ⟨[Event.errSend e] ++ (chunkLoop cfg fuel [] 0).1, ?_, ?_⟩
      · simp [producerRun, henv, ho, producerTeardown, List.append_assoc]
      · simp [List.countP_append, chunkLoop_countP_teardown, isTeardown,
          List.countP_cons]
    | blocked => simp [producerRun, henv, ho] at hfin
    | panicked =>
      refine ⟨[Event.errSend e] ++ (chunkLoop cfg fuel [] 0).1, ?_, ?_⟩
      · simp [producerRun, henv, ho, producerTeardown, List.append_assoc]
      · simp [List.countP_append, chunkLoop_countP_teardown, isTeardown,
          List.countP_cons]
    | outOfFuel => simp [producerRun, henv, ho] at hfin
  | none =>
    cases ho : (chunkLoop cfg fuel env.messages 0).2 with
    | finished =>
      refine ⟨(chunkLoop cfg fuel env.messages 0).1, ?_, ?_⟩
      · simp [producerRun, henv, ho, producerTeardown, List.append_assoc]
      · exact chunkLoop_countP_teardown _ _ _ _
    | blocked => simp [producerRun, henv, ho] at hfin
    | panicked =>
      refine ⟨(chunkLoop cfg fuel env.messages 0).1, ?_, ?_⟩
      · simp [producerRun, henv, ho, producerTeardown, List.append_assoc]
      · exact chunkLoop_countP_teardown _ _ _ _
    | outOfFuel => simp [producerRun, henv, ho] at hfin

/-- A finished producer run closes the output channel, the error channel, the
broker connection and the broker channel exactly once each. -/
theorem producerRun_close_counts (fuel : Nat) (cfg : queueConfig)
    (env : ProducerEnv)
    (hfin : (producerRun fuel cfg env).2 = Outcome.finished) :
    (producerRun fuel cfg env).1.count Event.closeSend = 1
    ∧ (producerRun fuel cfg env).1.count Event.closeErrs = 1
    ∧ (producerRun fuel cfg env).1.count Event.connClose = 1
    ∧ (producerRun fuel cfg env).1.count Event.chanClose = 1 := by
  obtain ⟨pre, heq, hpre⟩ := producerRun_finished_shape fuel cfg env hfin
  have hd := disconnect_counts env.connCloseErr env.chanCloseErr
  rw [heq]
  simp only [List.count_append]
  rw [count_zero_of_countP_teardown_zero hpre Event.closeSend rfl,
    count_zero_of_countP_teardown_zero hpre Event.closeErrs rfl,
    count_zero_of_countP_teardown_zero hpre Event.connClose rfl,
    count_zero_of_countP_teardown_zero hpre Event.chanClose rfl,
    hd.1, hd.2.1, hd.2.2.1, hd.2.2.2.1]
  refine ⟨rfl, rfl, rfl, rfl⟩

/-- A consume-setup failure leaves only the error report in the trace: the run
blocks forever on the nil delivery stream before any teardown can happen. -/
theorem producerRun_consume_error (fuel : Nat) (cfg : queueConfig)
    (env : ProducerEnv) (e : Err) (henv : env.consumeErr = some e)
    (hc : 1 ≤ cfg.chunkSize) (hf : 1 ≤ fuel) :
    producerRun fuel cfg env = ([Event.errSend e], Outcome.blocked) := by
  obtain ⟨f, rfl⟩ : ∃ f, fuel = f + 1 := ⟨fuel - 1, by omega⟩
  have hc0 : ¬ cfg.chunkSize = 0 := by omega
  simp [producerRun, henv, chunkLoop, Nat.le_zero, hc0]

/-- C1: the claim says a failed `channel.Consume` is reported on the error
channel and the stream then tears down without reading the delivery stream.
The code reports the error but has no `return` after it, so the worker walks
into the chunk loop and blocks forever on the first receive from the nil
delivery stream: the complete observable trace is the single error report, the
run is `blocked`, and the deferred teardown (close output, close errors,
disconnect) never runs.  This theorem evaluates the code at that failing
input. -/
theorem producer_consume_error_no_teardown (fuel : Nat) (cfg : queueConfig)
    (env : ProducerEnv) (e : Err) (henv : env.consumeErr = some e)
    (hc : 1 ≤ cfg.chunkSize) (hf : 1 ≤ fuel) :
    producerRun fuel cfg env = ([Event.errSend e], Outcome.blocked)
    ∧ (producerRun fuel cfg env).2 ≠ Outcome.finished
    ∧ Event.closeSend ∉ (producerRun fuel cfg env).1
    ∧ Event.closeErrs ∉ (producerRun fuel cfg env).1
    ∧ Event.connClose ∉ (producerRun fuel cfg env).1
    ∧ Event.chanClose ∉ (producerRun fuel cfg env).1 := by
  have h := producerRun_consume_error fuel cfg env e henv hc hf
  rw [h]
  refine ⟨rfl, by simp, by simp, by simp, by simp, by simp⟩

/-- Witness: the consume-failure evaluation at a concrete configuration. -/
theorem producer_consume_error_no_teardown_witness :
    producerRun 2 ⟨"amqp://h", "q", "text/plain", 0, 1, false, false⟩
        ⟨some "consume failed", [], none, none⟩
      = ([Event.errSend "consume failed"], Outcome.blocked) :=
  (producer_consume_error_no_teardown 2
    ⟨"amqp://h", "q", "text/plain", 0, 1, false, false⟩
    ⟨some "consume failed", [], none, none⟩ "consume failed"
    rfl (by decide) (by decide)).1

/-- C2 counterexample: the deferred calls run in reverse registration order,
so on a normally completing run the error channel is closed before the output
channel — not after it, as the claim orders them — and on a consume-setup
failure (one of the claim's listed exit paths) nothing is closed at all. -/
theorem producer_teardown_order_counterexample :
    ¬ ((producerRun 1 ⟨"amqp://h", "q", "t", 1, 1, false, false⟩
          ⟨none, [⟨1, "m1", none⟩], none, none⟩).1.indexOf Event.closeSend
        < (producerRun 1 ⟨"amqp://h", "q", "t", 1, 1, false, false⟩
          ⟨none, [⟨1, "m1", none⟩], none, none⟩).1.indexOf Event.closeErrs)
    ∧ Event.closeSend ∈ (producerRun 1 ⟨"amqp://h", "q", "t", 1, 1, false, false⟩
          ⟨none, [⟨1, "m1", none⟩], none, none⟩).1
    ∧ Event.closeErrs ∈ (producerRun 1 ⟨"amqp://h", "q", "t", 1, 1, false, false⟩
          ⟨none, [⟨1, "m1", none⟩], none, none⟩).1
    ∧ (producerRun 1 ⟨"amqp://h", "q", "t", 1, 1, false, false⟩
          ⟨none, [⟨1, "m1", none⟩], none, none⟩).2 = Outcome.finished
    ∧ producerRun 1 ⟨"amqp://h", "q", "t", 0, 1, false, false⟩
          ⟨some "consume failed", [], none, none⟩
        = ([Event.errSend "consume failed"], Outcome.blocked) := by
  decide

/-- C2 (amended): on every exit the producer stream actually reaches — normal
stop-after completion and acknowledgment failure, both ending `finished` — the
deferred teardown runs exactly once in reverse registration order: disconnect
the broker handle, then close the error channel, then close the output
channel.  Consume-setup failure is not an exit path: the stream emits only the
error report, blocks, and performs no teardown. -/
theorem producer_teardown_order (fuel : Nat) (cfg : queueConfig)
    (env : ProducerEnv) :
    ((producerRun fuel cfg env).2 = Outcome.finished →
      (∃ pre, (producerRun fuel cfg env).1
          = pre ++ (disconnect env.connCloseErr env.chanCloseErr
            ++ [Event.closeErrs, Event.closeSend])
        ∧ List.countP isTeardown pre = 0)
      ∧ (producerRun fuel cfg env).1.count Event.closeSend = 1
      ∧ (producerRun fuel cfg env).1.count Event.closeErrs = 1
      ∧ (producerRun fuel cfg env).1.count Event.connClose = 1
      ∧ (producerRun fuel cfg env).1.count Event.chanClose = 1)
    ∧ (∀ e, env.consumeErr = some e → 1 ≤ cfg.chunkSize → 1 ≤ fuel →
        producerRun fuel cfg env = ([Event.errSend e], Outcome.blocked)) := by
  constructor
  · intro hfin
    exact ⟨producerRun_finished_shape fuel cfg env hfin,
      producerRun_close_counts fuel cfg env hfin⟩
  · intro e henv hc hf
    exact producerRun_consume_error fuel cfg env e henv hc hf

/-- Witness for the amended teardown-order theorem at a concrete finished run
and a concrete consume-failure run. -/
theorem producer_teardown_order_witness :
    ((∃ pre, (producerRun 1 ⟨"amqp://h", "q", "t", 1, 1, false, false⟩
          ⟨none, [⟨1, "m1", none⟩], none, none⟩).1
        = pre ++ (disconnect none none ++ [Event.closeErrs, Event.closeSend])
      ∧ List.countP isTeardown pre = 0)
      ∧ (producerRun 1 ⟨"amqp://h", "q", "t", 1, 1, false, false⟩
          ⟨none, [⟨1, "m1", none⟩], none, none⟩).1.count Event.closeSend = 1
      ∧ (producerRun 1 ⟨"amqp://h", "q", "t", 1, 1, false, false⟩
          ⟨none, [⟨1, "m1", none⟩], none, none⟩).1.count Event.closeErrs = 1
      ∧ (producerRun 1 ⟨"amqp://h", "q", "t", 1, 1, false, false⟩
          ⟨none, [⟨1, "m1", none⟩], none, none⟩).1.count Event.connClose = 1
      ∧ (producerRun 1 ⟨"amqp://h", "q", "t", 1, 1, false, false⟩
          ⟨none, [⟨1, "m1", none⟩], none, none⟩).1.count Event.chanClose = 1)
    ∧ producerRun 1 ⟨"amqp://h", "q", "t", 0, 1, false, false⟩
          ⟨some "ce", [], none, none⟩ = ([Event.errSend "ce"], Outcome.blocked) :=
  ⟨(producer_teardown_order 1 ⟨"amqp://h", "q", "t", 1, 1, false, false⟩
      ⟨none, [⟨1, "m1", none⟩], none, none⟩).1 (by decide),
   (producer_teardown_order 1 ⟨"amqp://h", "q", "t", 0, 1, false, false⟩
      ⟨some "ce", [], none, none⟩).2 "ce" rfl (by decide) (by decide)⟩

/-- C3: with a positive `stop-after = k`, enough broker messages and no failure,
the producer stream forwards exactly `k` bodies — the counter is checked after
each forward — then returns, closing the output and error channels exactly once
each; with `stop-after = 0` the stream never finishes on the iteration count. -/
theorem producer_stop_after (fuel : Nat) (cfg : queueConfig) (env : ProducerEnv)
    (hc : 1 ≤ cfg.chunkSize) (hsetup : env.consumeErr = none)
    (hack : ∀ d ∈ env.messages, d.ackErr = none) :
    (0 < cfg.stopAfter →
      cfg.stopAfter.toNat ≤ cfg.chunkSize * fuel →
      cfg.chunkSize * fuel ≤ env.messages.length →
      (producerRun fuel cfg env).2 = Outcome.finished
      ∧ countSends (producerRun fuel cfg env).1 = cfg.stopAfter.toNat
      ∧ (producerRun fuel cfg env).1.count Event.closeSend = 1
      ∧ (producerRun fuel cfg env).1.count Event.closeErrs = 1)
    ∧ (cfg.stopAfter = 0 → (producerRun fuel cfg env).2 ≠ Outcome.finished) := by
  constructor
  · intro hpos hfu hlen
    have h := chunkLoop_finishes cfg hc fuel env.messages 0 hack (by omega) hpos
      (by simpa using hfu) hlen
    simp only [Int.sub_zero] at h
    have hfin : (producerRun fuel cfg env).2 = Outcome.finished := by
      simp [producerRun, hsetup, h.1]
    refine ⟨hfin, ?_, (producerRun_close_counts fuel cfg env hfin).1,
      (producerRun_close_counts fuel cfg env hfin).2.1⟩
    have hTz : List.countP isSend (producerTeardown env) = 0 :=
      producerTeardown_countP_zero env isSend rfl rfl (fun e => rfl) rfl rfl
    simp only [producerRun, hsetup, h.1, List.nil_append, countSends,
      List.countP_append, hTz]
    have h2 := h.2
    simp only [countSends] at h2
    omega
  · intro hk0
    cases ho : (chunkLoop cfg fuel env.messages 0).2 with
    | finished =>
      exact absurd ho
        (chunkLoop_stopAfter_zero_not_finished cfg hc hk0 fuel env.messages 0 hack)
    | blocked => simp [producerRun, hsetup, ho]
    | panicked => simp [producerRun, hsetup, ho]
    | outOfFuel => simp [producerRun, hsetup, ho]

/-- Witness: four messages, chunk size two, stop-after three — the run finishes
having sent exactly three bodies and closed each channel once. -/
theorem producer_stop_after_witness :
    (producerRun 2 ⟨"amqp://h", "q", "t", 3, 2, false, false⟩
        ⟨none, [⟨1, "m1", none⟩, ⟨2, "m2", none⟩, ⟨3, "m3", none⟩, ⟨4, "m4", none⟩],
          none, none⟩).2 = Outcome.finished
    ∧ countSends (producerRun 2 ⟨"amqp://h", "q", "t", 3, 2, false, false⟩
        ⟨none, [⟨1, "m1", none⟩, ⟨2, "m2", none⟩, ⟨3, "m3", none⟩, ⟨4, "m4", none⟩],
          none, none⟩).1 = (3 : Int).toNat
    ∧ (producerRun 2 ⟨"amqp://h", "q", "t", 3, 2, false, false⟩
        ⟨none, [⟨1, "m1", none⟩, ⟨2, "m2", none⟩, ⟨3, "m3", none⟩, ⟨4, "m4", none⟩],
          none, none⟩).1.count Event.closeSend = 1
    ∧ (producerRun 2 ⟨"amqp://h", "q", "t", 3, 2, false, false⟩
        ⟨none, [⟨1, "m1", none⟩, ⟨2, "m2", none⟩, ⟨3, "m3", none⟩, ⟨4, "m4", none⟩],
          none, none⟩).1.count Event.closeErrs = 1 :=
  (producer_stop_after 2 ⟨"amqp://h", "q", "t", 3, 2, false, false⟩
    ⟨none, [⟨1, "m1", none⟩, ⟨2, "m2", none⟩, ⟨3, "m3", none⟩, ⟨4, "m4", none⟩],
      none, none⟩ (by decide) rfl (by decide)).1 (by decide) (by decide) (by decide)

/-- C4: with `auto-ack = false` each chunk iteration attempts exactly one
acknowledgment, cumulative (`multiple = true`), on the chunk's last delivery,
and only after all `chunkSize` receives of the chunk — the trace of an
iteration starts with the receives immediately followed by the single `Ack`
call, so no send and no other acknowledgment precedes it; if that call fails
the error is sent on the error channel and the loop returns at once without
forwarding any of the chunk's bodies; and globally `chunkSize` times the
number of `Ack` calls never exceeds the number of receives, so per-message
acknowledgment never happens. -/
theorem producer_manual_ack (cfg : queueConfig) (hA : cfg.autoAck = false) :
    (∀ (fuel : Nat) (msgs : List Delivery) (i : Int) (last : Delivery),
        cfg.chunkSize ≤ msgs.length →
        (msgs.take cfg.chunkSize).getLast? = some last →
        ((chunkLoop cfg (fuel + 1) msgs i).1.take (cfg.chunkSize + 1)
          = ((msgs.take cfg.chunkSize).map fun d => Event.recv d.tag)
            ++ [Event.ackCall last.tag true])
        ∧ (∀ e, last.ackErr = some e →
            chunkLoop cfg (fuel + 1) msgs i
              = (((msgs.take cfg.chunkSize).map fun d => Event.recv d.tag)
                  ++ [Event.ackCall last.tag true, Event.errSend e],
                 Outcome.finished)))
    ∧ (∀ (fuel : Nat) (msgs : List Delivery) (i : Int),
        cfg.chunkSize * countAcks (chunkLoop cfg fuel msgs i).1
          ≤ countRecvs (chunkLoop cfg fuel msgs i).1) :=
  ⟨fun fuel msgs i last hcle hlast =>
    ⟨chunkLoop_chunk_start cfg hA fuel msgs i hcle last hlast,
     fun e hfail => chunkLoop_ack_failure cfg hA fuel msgs i hcle last e hlast hfail⟩,
   chunkLoop_ack_le_recv cfg hA⟩

/-- Witness: a two-message chunk whose acknowledgment fails — the trace is the
two receives, the one cumulative `Ack` on the second delivery, and the error
report, after which the loop has returned with nothing sent. -/
theorem producer_manual_ack_witness :
    ((chunkLoop ⟨"amqp://h", "q", "t", 0, 2, false, false⟩ 1
        [⟨1, "m1", none⟩, ⟨2, "m2", some "ack failed"⟩] 0).1.take 3
      = [Event.recv 1, Event.recv 2, Event.ackCall 2 true])
    ∧ (chunkLoop ⟨"amqp://h", "q", "t", 0, 2, false, false⟩ 1
        [⟨1, "m1", none⟩, ⟨2, "m2", some "ack failed"⟩] 0
      = ([Event.recv 1, Event.recv 2, Event.ackCall 2 true,
          Event.errSend "ack failed"], Outcome.finished))
    ∧ 2 * countAcks (chunkLoop ⟨"amqp://h", "q", "t", 0, 2, false, false⟩ 1
        [⟨1, "m1", none⟩, ⟨2, "m2", some "ack failed"⟩] 0).1
        ≤ countRecvs (chunkLoop ⟨"amqp://h", "q", "t", 0, 2, false, false⟩ 1
        [⟨1, "m1", none⟩, ⟨2, "m2", some "ack failed"⟩] 0).1 := by
  have h := producer_manual_ack ⟨"amqp://h", "q", "t", 0, 2, false, false⟩ rfl
  have h1 := h.1 0 [⟨1, "m1", none⟩, ⟨2, "m2", some "ack failed"⟩] 0
    ⟨2, "m2", some "ack failed"⟩ (by decide) (by decide)
  exact ⟨h1.1.trans (by decide), (h1.2 "ack failed" rfl).trans (by decide),
    h.2 1 [⟨1, "m1", none⟩, ⟨2, "m2", some "ack failed"⟩] 0⟩

/-- C5: with `stop-after = 0`, chunk size `c ≥ 1` and `n` available messages,
the producer sends exactly `min(n, c * (n / c))` bodies — the full chunks and
nothing of a partial one — and then blocks on the next receive. -/
theorem producer_chunk_granularity (fuel : Nat) (cfg : queueConfig)
    (env : ProducerEnv) (hc : 1 ≤ cfg.chunkSize) (hk : cfg.stopAfter = 0)
    (hsetup : env.consumeErr = none)
    (hack : ∀ d ∈ env.messages, d.ackErr = none)
    (hfuel : env.messages.length < cfg.chunkSize * fuel) :
    (producerRun fuel cfg env).2 = Outcome.blocked
    ∧ countSends (producerRun fuel cfg env).1
        = Nat.min env.messages.length
            (cfg.chunkSize * (env.messages.length / cfg.chunkSize)) := by
  have h := chunkLoop_blocked cfg hc hk fuel env.messages 0 hack hfuel
  have hmin : Nat.min env.messages.length
      (cfg.chunkSize * (env.messages.length / cfg.chunkSize))
      = cfg.chunkSize * (env.messages.length / cfg.chunkSize) :=
    Nat.min_eq_right (by rw [Nat.mul_comm]; exact Nat.div_mul_le_self _ _)
  have htr : (producerRun fuel cfg env).1 = (chunkLoop cfg fuel env.messages 0).1 := by
    simp [producerRun, hsetup, h.1]
  refine ⟨?_, ?_⟩
  · simp [producerRun, hsetup, h.1]
  · rw [hmin, htr]
    exact h.2

/-- Witness: five messages with chunk size two — four bodies go out, the run
then blocks on the sixth receive. -/
theorem producer_chunk_granularity_witness :
    (producerRun 3 ⟨"amqp://h", "q", "t", 0, 2, false, false⟩
        ⟨none, [⟨1, "m1", none⟩, ⟨2, "m2", none⟩, ⟨3, "m3", none⟩, ⟨4, "m4", none⟩,
          ⟨5, "m5", none⟩], none, none⟩).2 = Outcome.blocked
    ∧ countSends (producerRun 3 ⟨"amqp://h", "q", "t", 0, 2, false, false⟩
        ⟨none, [⟨1, "m1", none⟩, ⟨2, "m2", none⟩, ⟨3, "m3", none⟩, ⟨4, "m4", none⟩,
          ⟨5, "m5", none⟩], none, none⟩).1 = Nat.min 5 (2 * (5 / 2)) :=
  producer_chunk_granularity 3 ⟨"amqp://h", "q", "t", 0, 2, false, false⟩
    ⟨none, [⟨1, "m1", none⟩, ⟨2, "m2", none⟩, ⟨3, "m3", none⟩, ⟨4, "m4", none⟩,
      ⟨5, "m5", none⟩], none, none⟩
    (by decide) rfl rfl (by decide) (by decide)

/-- C6 counterexample: in the worked scenario (chunk 2, manual ack, five
available messages, stop-after 3) message 3 is NOT forwarded before message 4
is received — the whole second chunk is received, then acknowledged, and only
then is message 3's body sent. -/
theorem producer_scenario_counterexample :
    ¬ ((producerRun 3 ⟨"amqp://h", "q", "t", 3, 2, false, false⟩
          ⟨none, [⟨1, "m1", none⟩, ⟨2, "m2", none⟩, ⟨3, "m3", none⟩,
            ⟨4, "m4", none⟩, ⟨5, "m5", none⟩], none, none⟩).1.indexOf
            (Event.send "m3")
        < (producerRun 3 ⟨"amqp://h", "q", "t", 3, 2, false, false⟩
          ⟨none, [⟨1, "m1", none⟩, ⟨2, "m2", none⟩, ⟨3, "m3", none⟩,
            ⟨4, "m4", none⟩, ⟨5, "m5", none⟩], none, none⟩).1.indexOf
            (Event.recv 4))
    ∧ Event.send "m3" ∈ (producerRun 3 ⟨"amqp://h", "q", "t", 3, 2, false, false⟩
          ⟨none, [⟨1, "m1", none⟩, ⟨2, "m2", none⟩, ⟨3, "m3", none⟩,
            ⟨4, "m4", none⟩, ⟨5, "m5", none⟩], none, none⟩).1
    ∧ Event.recv 4 ∈ (producerRun 3 ⟨"amqp://h", "q", "t", 3, 2, false, false⟩
          ⟨none, [⟨1, "m1", none⟩, ⟨2, "m2", none⟩, ⟨3, "m3", none⟩,
            ⟨4, "m4", none⟩, ⟨5, "m5", none⟩], none, none⟩).1 := by
  decide

/-- C6 (amended): the full event trace of the worked scenario — messages 1, 2,
3 are the only bodies emitted and the run finishes; the cumulative
acknowledgment covering messages 1-2 happens right after message 2's receive,
the one covering 3-4 right after message 4's receive, and message 3's body is
forwarded after message 4 has been received (not before). -/
theorem producer_scenario_trace :
    producerRun 3 ⟨"amqp://h", "q", "t", 3, 2, false, false⟩
        ⟨none, [⟨1, "m1", none⟩, ⟨2, "m2", none⟩, ⟨3, "m3", none⟩, ⟨4, "m4", none⟩,
          ⟨5, "m5", none⟩], none, none⟩
      = ([Event.recv 1, Event.recv 2, Event.ackCall 2 true, Event.send "m1",
          Event.send "m2", Event.recv 3, Event.recv 4, Event.ackCall 4 true,
          Event.send "m3", Event.connClose, Event.chanClose, Event.closeErrs,
          Event.closeSend], Outcome.finished) := by
  decide

/-- C7: the consumer publishes every received item exactly once, in arrival
order, to the default exchange (empty string) with routing key equal to the
queue name, the configured content type and the item's bytes as body — keeping
only the publish events of a run returns precisely that list — and, when
teardown itself raises no close error, the error channel carries exactly one
report per failed publish; since every item is published whatever happened to
the previous ones, a failure on item `i` never prevents publishing item
`i + 1`. -/
theorem consumer_publish_order (cfg : queueConfig) (env : ConsumerEnv) :
    ((consumerRun cfg env).filter isPublish
      = env.items.map fun p => Event.publish "" cfg.queue cfg.contentType p.1)
    ∧ (env.connCloseErr = none → env.chanCloseErr = none →
        countErrs (consumerRun cfg env)
          = env.items.countP fun p => p.2.isSome) := by
  constructor
  · simp only [consumerRun, List.filter_append, pubEvents_filter]
    have hd : (disconnect env.connCloseErr env.chanCloseErr).filter isPublish
        = [] := by
      cases env.connCloseErr <;> cases env.chanCloseErr <;> rfl
    rw [hd]
    simp [isPublish]
  · intro h1 h2
    simp only [consumerRun, countErrs, List.countP_append, pubEvents_countErrs,
      h1, h2]
    simp [disconnect, isErr]

/-- Witness: two items, the second of which fails to publish — both are
published, in order, and exactly one error is reported. -/
theorem consumer_publish_order_witness :
    ((consumerRun ⟨"amqp://h", "jobs", "text/plain", 0, 1, false, false⟩
        ⟨[("a", none), ("b", some "publish failed")], none, none⟩).filter isPublish
      = ([("a", none), ("b", some "publish failed")] : List (Body × Option Err)).map
          fun p => Event.publish "" "jobs" "text/plain" p.1)
    ∧ countErrs (consumerRun ⟨"amqp://h", "jobs", "text/plain", 0, 1, false, false⟩
        ⟨[("a", none), ("b", some "publish failed")], none, none⟩)
      = ([("a", none), ("b", some "publish failed")] : List (Body × Option Err)).countP
          fun p => p.2.isSome := by
  have h := consumer_publish_order
    ⟨"amqp://h", "jobs", "text/plain", 0, 1, false, false⟩
    ⟨[("a", none), ("b", some "publish failed")], none, none⟩
  exact ⟨h.1, h.2 rfl rfl⟩

/-- C8 counterexample: the consumer's deferred calls run in reverse
registration order, so on input-channel closure the broker connection is
closed (disconnect) before `done` is signalled — not after it, as the claim
orders them. -/
theorem consumer_teardown_counterexample :
    ¬ ((consumerRun ⟨"amqp://h", "q", "t", 0, 1, false, false⟩
          ⟨[("a", none)], none, none⟩).indexOf Event.closeDone
        < (consumerRun ⟨"amqp://h", "q", "t", 0, 1, false, false⟩
          ⟨[("a", none)], none, none⟩).indexOf Event.connClose)
    ∧ Event.closeDone ∈ consumerRun ⟨"amqp://h", "q", "t", 0, 1, false, false⟩
          ⟨[("a", none)], none, none⟩
    ∧ Event.connClose ∈ consumerRun ⟨"amqp://h", "q", "t", 0, 1, false, false⟩
          ⟨[("a", none)], none, none⟩ := by
  decide

/-- C8 (amended): when the input channel closes, the consumer stream — even
after zero items — runs its deferred teardown exactly once, in reverse
registration order: disconnect the broker handle, then close the error
channel, then signal completion by closing `done`, which comes last. -/
theorem consumer_teardown_order (cfg : queueConfig) (env : ConsumerEnv) :
    consumerRun cfg env
      = pubEvents cfg.queue cfg.contentType env.items
        ++ (disconnect env.connCloseErr env.chanCloseErr
          ++ [Event.closeErrs, Event.closeDone])
    ∧ List.countP isTeardown (pubEvents cfg.queue cfg.contentType env.items) = 0
    ∧ (consumerRun cfg env).count Event.closeDone = 1
    ∧ (consumerRun cfg env).count Event.closeErrs = 1
    ∧ (consumerRun cfg env).count Event.connClose = 1
    ∧ (consumerRun cfg env).count Event.chanClose = 1 := by
  have hp := pubEvents_countP_teardown cfg.queue cfg.contentType env.items
  have hd := disconnect_counts env.connCloseErr env.chanCloseErr
  refine ⟨by rw [consumerRun, List.append_assoc], hp, ?_, ?_, ?_, ?_⟩
  · simp only [consumerRun, List.count_append]
    rw [count_zero_of_countP_teardown_zero hp Event.closeDone rfl, hd.2.2.2.2]
    rfl
  · simp only [consumerRun, List.count_append]
    rw [count_zero_of_countP_teardown_zero hp Event.closeErrs rfl, hd.2.2.2.1]
    rfl
  · simp only [consumerRun, List.count_append]
    rw [count_zero_of_countP_teardown_zero hp Event.connClose rfl, hd.1]
    rfl
  · simp only [consumerRun, List.count_append]
    rw [count_zero_of_countP_teardown_zero hp Event.chanClose rfl, hd.2.1]
    rfl

/-- C9: `disconnect` attempts the connection close and the channel close
exactly once each, whatever either close returns, and each close failure is
sent on the error channel rather than raised. -/
theorem disconnect_both_attempted (ce che : Option Err) :
    (disconnect ce che).count Event.connClose = 1
    ∧ (disconnect ce che).count Event.chanClose = 1
    ∧ (∀ e, ce = some e → Event.errSend e ∈ disconnect ce che)
    ∧ (∀ e, che = some e → Event.errSend e ∈ disconnect ce che) := by
  refine ⟨(disconnect_counts ce che).1, (disconnect_counts ce che).2.1, ?_, ?_⟩
  · intro e he
    subst he
    simp [disconnect]
  · intro e he
    subst he
    cases ce <;> simp [disconnect]

/-- Witness: both closes fail — both are still attempted and both failures are
reported on the error channel. -/
theorem disconnect_both_attempted_witness :
    (disconnect (some "conn close failed") (some "chan close failed")).count
        Event.connClose = 1
    ∧ (disconnect (some "conn close failed") (some "chan close failed")).count
        Event.chanClose = 1
    ∧ Event.errSend "conn close failed"
        ∈ disconnect (some "conn close failed") (some "chan close failed")
    ∧ Event.errSend "chan close failed"
        ∈ disconnect (some "conn close failed") (some "chan close failed") := by
  have h := disconnect_both_attempted (some "conn close failed")
    (some "chan close failed")
  exact ⟨h.1, h.2.1, h.2.2.1 _ rfl, h.2.2.2 _ rfl⟩

/-- C10: with `chunk-size = 0` and `auto-ack = false` the acknowledgment step
evaluates `msgBuf[len(msgBuf)-1]` on an empty buffer — index `-1`, out of
bounds — so the run panics (nothing in the adapter validates the chunk size);
with any chunk size at least 1 no producer run can panic. -/
theorem producer_chunk_zero_unsafe (fuel : Nat) (cfg : queueConfig)
    (env : ProducerEnv) (hc : cfg.chunkSize = 0) (hA : cfg.autoAck = false)
    (hs : env.consumeErr = none) :
    (producerRun (fuel + 1) cfg env).2 = Outcome.panicked
    ∧ ∀ (cfg2 : queueConfig) (fuel2 : Nat) (env2 : ProducerEnv),
        1 ≤ cfg2.chunkSize →
        (producerRun fuel2 cfg2 env2).2 ≠ Outcome.panicked := by
  constructor
  · have hle : cfg.chunkSize ≤ env.messages.length := by
      rw [hc]
      exact Nat.zero_le _
    have htake : env.messages.take cfg.chunkSize = [] := by
      rw [hc]
      rfl
    have h0 : (chunkLoop cfg (fuel + 1) env.messages 0).2 = Outcome.panicked := by
      simp [chunkLoop, hle, hA, htake]
    simp [producerRun, hs, h0]
  · intro cfg2 fuel2 env2 hc2
    have hnp : ∀ msgs : List Delivery,
        (chunkLoop cfg2 fuel2 msgs 0).2 ≠ Outcome.panicked :=
      fun msgs => chunkLoop_no_panic cfg2 hc2 fuel2 msgs 0
    cases henv : env2.consumeErr with
    | some e =>
      cases ho : (chunkLoop cfg2 fuel2 [] 0).2 with
      | finished => simp [producerRun, henv, ho]
      | blocked => simp [producerRun, henv, ho]
      | panicked => exact absurd ho (hnp [])
      | outOfFuel => simp [producerRun, henv, ho]
    | none =>
      cases ho : (chunkLoop cfg2 fuel2 env2.messages 0).2 with
      | finished => simp [producerRun, henv, ho]
      | blocked => simp [producerRun, henv, ho]
      | panicked => exact absurd ho (hnp _)
      | outOfFuel => simp [producerRun, henv, ho]

/-- Witness: chunk size zero with manual acknowledgment panics at once; chunk
size one on the same broker state cannot panic. -/
theorem producer_chunk_zero_unsafe_witness :
    (producerRun 1 ⟨"amqp://h", "q", "t", 0, 0, false, false⟩
        ⟨none, [], none, none⟩).2 = Outcome.panicked
    ∧ (producerRun 1 ⟨"amqp://h", "q", "t", 0, 1, false, false⟩
        ⟨none, [], none, none⟩).2 ≠ Outcome.panicked := by
  have h := producer_chunk_zero_unsafe 0 ⟨"amqp://h", "q", "t", 0, 0, false, false⟩
    ⟨none, [], none, none⟩ rfl rfl rfl
  exact ⟨h.1, h.2 ⟨"amqp://h", "q", "t", 0, 1, false, false⟩ 1
    ⟨none, [], none, none⟩ (by decide)⟩

end Amqp
